import Mathlib

/-!
Shallow embedding of the pg_timetable scheduler runtime
(`internal/scheduler/chain.go`, `internal/scheduler/shell.go`,
`internal/pgengine/access.go`), together with theorems settling the
specification claims about it.

Go contexts are modelled by an inductive `Ctx` tree recording how a context
was derived (background / incoming external context / `log.WithLogger`
wrapper / `context.WithTimeout` wrapper).  Database calls and task
dispatchers are oracles supplied as explicit function parameters, and the
side effects of a run are recorded as an explicit list of events.
-/

namespace PgTimetable

/-- Model of a Go `context.Context` value: we track only how the context was
derived, which is what the claims about cancellability and timeouts need. -/
inductive Ctx where
  | background : Ctx
  | external : Ctx
  | withLogger : Ctx → Ctx
  | withTimeout : Ctx → Int → Ctx
deriving DecidableEq

/-- A context is non-cancellable when it is `context.Background()` possibly
wrapped by `log.WithLogger` (which only stores a value). -/
def nonCancellable : Ctx → Bool
  | .background => true
  | .external => false
  | .withLogger c => nonCancellable c
  | .withTimeout _ _ => false

/-! ### Command runner (`shell.go`) -/

/-- Outcome of one `CombinedOutput` call: either an `*exec.ExitError`
carrying the process exit code, or any other (spawn) error. -/
inductive CmdErr where
  | exitError (code : Int)
  | other (msg : String)
deriving DecidableEq

/-- Combined stdout+stderr bytes plus the error returned by the commander. -/
structure CmdOutcome where
  out : String
  err : Option CmdErr
deriving DecidableEq

/-- `CommanderOptions` from `shell.go`. -/
structure CommanderOptions where
  chainId : Int
  taskId : Int
  command : String
  args : List String
deriving DecidableEq

/-- `ExecuteProgramOptions` from `shell.go`. -/
structure ExecuteProgramOptions where
  chainId : Int
  taskId : Int
  command : String
  paramValue : List String
deriving DecidableEq

/-- Error returned by `ExecuteProgramCommand(-WithOptions)`: the empty-command
error, a `json.Unmarshal` failure on a parameter value, or the commander's
own error. -/
inductive ExecErr where
  | emptyCommand
  | jsonError (val : String)
  | cmd (e : CmdErr)
deriving DecidableEq

/-- Result of `ExecuteProgramCommand(-WithOptions)`: the returned
`(code, stdout, stderr)` triple plus, as instrumentation, the argv of every
commander invocation actually performed, in order. -/
structure ExecResult where
  code : Int
  stdout : String
  err : Option ExecErr
  calls : List (List String)
deriving DecidableEq

/-- Go's `strings.TrimSpace`, written over the character list so that the
kernel can evaluate it on concrete strings (Go also strips some rarer
Unicode space classes; none of the claims depend on those). -/
def trimSpace (s : String) : String :=
  ⟨((s.data.dropWhile Char.isWhitespace).reverse.dropWhile
      Char.isWhitespace).reverse⟩

/-- The argv used for one parameter value: Go leaves `params` empty when
`val > ""` fails (i.e. `val = ""`), otherwise JSON-decodes `val`.  The
decoder itself (`encoding/json`) is an external library and is passed in as
`decode`. -/
def argvOf (decode : String → Option (List String)) (val : String) :
    Option (List String) :=
  if val = "" then some [] else decode val

/-- The parameter loop of `ExecuteProgramCommand` (`shell.go` lines 55-77).
`stdout` is the accumulator variable of the Go function. -/
def execProgramLoop (decode : String → Option (List String))
    (c : Ctx → String → List String → CmdOutcome) (ctx : Ctx)
    (command : String) (stdout : String) : List String → ExecResult
  | [] => ⟨0, stdout, none, []⟩
  | val :: rest =>
    match argvOf decode val with
    | none => ⟨-1, "", some (.jsonError val), []⟩
    | some params =>
      let o := c ctx command params
      let stdout := trimSpace o.out
      match o.err with
      | some (.exitError code) => ⟨code, stdout, some (.cmd (.exitError code)), [params]⟩
      | some (.other m) => ⟨-1, stdout, some (.cmd (.other m)), [params]⟩
      | none =>
        let r := execProgramLoop decode c ctx command stdout rest
        { r with calls := params :: r.calls }

/-- `ExecuteProgramCommand` (`shell.go` lines 46-79), with the commander
`Cmd.CombinedOutput` supplied as the oracle `c`. -/
def ExecuteProgramCommand (decode : String → Option (List String))
    (c : Ctx → String → List String → CmdOutcome) (ctx : Ctx)
    (command : String) (paramValues : List String) : ExecResult :=
  let command := trimSpace command
  if command = "" then ⟨-1, "", some .emptyCommand, []⟩
  else
    let pv := if paramValues = [] then [""] else paramValues
    execProgramLoop decode c ctx command "" pv

/-- The parameter loop of `ExecuteProgramCommandWithOptions` (`shell.go`
lines 99-121), invoking the commander through `CommanderOptions`. -/
def execProgramLoopWithOptions (decode : String → Option (List String))
    (c : Ctx → CommanderOptions → CmdOutcome) (ctx : Ctx)
    (chainId taskId : Int) (command : String) (stdout : String) :
    List String → ExecResult
  | [] => ⟨0, stdout, none, []⟩
  | val :: rest =>
    match argvOf decode val with
    | none => ⟨-1, "", some (.jsonError val), []⟩
    | some params =>
      let o := c ctx ⟨chainId, taskId, command, params⟩
      let stdout := trimSpace o.out
      match o.err with
      | some (.exitError code) => ⟨code, stdout, some (.cmd (.exitError code)), [params]⟩
      | some (.other m) => ⟨-1, stdout, some (.cmd (.other m)), [params]⟩
      | none =>
        let r := execProgramLoopWithOptions decode c ctx chainId taskId command stdout rest
        { r with calls := params :: r.calls }

/-- `ExecuteProgramCommandWithOptions` (`shell.go` lines 89-123), with the
commander `Cmd.CombinedOutputWithOptions` supplied as the oracle `c`. -/
def ExecuteProgramCommandWithOptions (decode : String → Option (List String))
    (c : Ctx → CommanderOptions → CmdOutcome) (ctx : Ctx)
    (o : ExecuteProgramOptions) : ExecResult :=
  let command := trimSpace o.command
  if command = "" then ⟨-1, "", some .emptyCommand, []⟩
  else
    let pv := if o.paramValue = [] then [""] else o.paramValue
    execProgramLoopWithOptions decode c ctx o.chainId o.taskId command "" pv

/-! ### Chain and task execution (`chain.go`) -/

/-- `getTimeoutContext` (`chain.go` lines 150-156).  The returned
`Option Unit` stands for the returned `context.CancelFunc`: `some ()` for a
real cancel function, `none` for Go's `nil`. -/
def getTimeoutContext (ctx : Ctx) (t1 t2 : Int) : Ctx × Option Unit :=
  let timeout := max t1 t2
  if timeout > 0 then (Ctx.withTimeout ctx timeout, some ())
  else (ctx, none)

/-- The fields of `pgengine.ChainTask` that `chain.go` reads or writes
(timestamps `StartedAt`/`Duration` are wall-clock instrumentation and are
not modelled). -/
structure ChainTask where
  taskID : Int
  chainID : Int
  txid : Int
  kind : String
  script : String
  ignoreError : Bool
  timeout : Int
deriving DecidableEq

/-- `config.Resource` fields used by `chain.go`. -/
structure Resource where
  chainTimeout : Int
  taskTimeout : Int
deriving DecidableEq

/-- The scheduler configuration read during chain execution:
`sch.Config().Resource` and `sch.pgengine.NoProgramTasks`. -/
structure SchedCfg where
  resource : Resource
  noProgramTasks : Bool
deriving DecidableEq

/-- `chain` (`pgengine.Chain`) fields used by `executeChain`. -/
structure Chain where
  chainID : Int
  timeout : Int
  maxInstances : Int
  exclusiveExecution : Bool
  selfDestruct : Bool
deriving DecidableEq

/-- Oracle for the database calls made while executing one chain element:
`GetChainParamValues` (`none` = error) and the three task dispatchers
`ExecuteSQLTask`, `ExecuteProgramCommandWithOptions` and `executeTask`.
Each dispatcher receives the effective (possibly timeout-wrapped) context,
the task script and the parameter values, and returns what the Go call
returns: `(out, err)` for SQL and BUILTIN, `(retCode, out, err)` for
PROGRAM. -/
structure TaskOracle where
  paramValues : Option (List String)
  execSQLTask : Ctx → String → List String → String × Option String
  execProgram : Ctx → String → List String → Int × String × Option String
  execBuiltin : Ctx → String → List String → String × Option String

/-- Observable side effects of chain execution, each recording the context
it was issued on. -/
inductive Event where
  | taskStart (taskID : Int)
  | dispatch (kind : String) (ctx : Ctx)
  | logExec (ctx : Ctx) (retCode : Int) (out : String)
  | startTxFail
  | removeRunStatus (ctx : Ctx) (chainID : Int)
  | rollback (ctx : Ctx)
  | commit (ctx : Ctx)
  | deleteChainConfig (ctx : Ctx) (chainID : Int)
deriving DecidableEq

/-- The `switch task.Kind` dispatch of `executeChainElement` (`chain.go`
lines 239-250), evaluated on the effective context `tctx`.  Returns `none`
when a PROGRAM task is skipped because `NoProgramTasks` is set (the Go code
returns `-2` there), otherwise the `(retCode, out, err)` state after the
switch; for a kind matching no case the three variables keep their zero
values. -/
def dispatchTask (cfg : SchedCfg) (o : TaskOracle) (tctx : Ctx)
    (task : ChainTask) (paramValues : List String) :
    Option (Int × String × Option String) :=
  if task.kind = "SQL" then
    let r := o.execSQLTask tctx task.script paramValues
    some (0, r.1, r.2)
  else if task.kind = "PROGRAM" then
    if cfg.noProgramTasks then none
    else some (o.execProgram tctx task.script paramValues)
  else if task.kind = "BUILTIN" then
    let r := o.execBuiltin tctx task.script paramValues
    some (0, r.1, r.2)
  else some (0, "", none)

/-- `executeChainElement` (`chain.go` lines 216-264; named
`executeСhainElement` in the source).  Returns the exit code together with
the trace of effects: a `dispatch` event on the effective context and, on
the paths that reach it, the `LogChainElementExecution` call issued on
`context.Background()`. -/
def executeChainElement (cfg : SchedCfg) (o : TaskOracle) (ctx : Ctx)
    (task : ChainTask) : Int × List Event :=
  match o.paramValues with
  | none => (-1, [])
  | some paramValues =>
    let tctx := (getTimeoutContext ctx cfg.resource.taskTimeout task.timeout).1
    match dispatchTask cfg o tctx task paramValues with
    | none => (-2, [])
    | some (retCode, out, err) =>
      let rc : Int := match err with
        | some _ => if retCode = 0 then -1 else retCode
        | none => retCode
      let outF : String := match err with
        | some e => out ++ "\n" ++ e
        | none => out
      (rc, [.dispatch task.kind tctx, .logExec .background rc outF])

/-- Oracle environment for `executeChain`: the configuration plus the
database calls it makes (`StartTransaction` returning the txid or `none` on
error, `GetChainElements`, and a per-task `TaskOracle` for the chain-element
calls). -/
structure SchedEnv where
  cfg : SchedCfg
  startTransaction : Int → Option Int
  getChainElements : Int → Option (List ChainTask)
  taskOracle : ChainTask → TaskOracle

/-- The per-iteration mutation `task.ChainID = chain.ChainID;
task.Txid = txid` (`chain.go` lines 188-189). -/
def withIds (chain : Chain) (txid : Int) (task : ChainTask) : ChainTask :=
  { task with chainID := chain.chainID, txid := txid }

/-- The task loop of `executeChain` (`chain.go` lines 187-213), including
the post-loop commit / run-status removal / self-destruct.  `ctx` is the
loop's context variable, rewrapped with `log.WithLogger` on every
iteration; the failure branch and the post-loop calls run on
`log.WithLogger(context.Background(), l)`. -/
def executeChainLoop (env : SchedEnv) (ctx : Ctx) (chain : Chain)
    (txid : Int) : List ChainTask → List Event
  | [] =>
    [.commit (.withLogger .background),
     .removeRunStatus (.withLogger .background) chain.chainID]
      ++ (if chain.selfDestruct
          then [.deleteChainConfig (.withLogger .background) chain.chainID]
          else [])
  | task :: rest =>
    let task := withIds chain txid task
    let ctx := Ctx.withLogger ctx
    let r := executeChainElement env.cfg (env.taskOracle task) ctx task
    .taskStart task.taskID :: r.2
      ++ (if r.1 ≠ 0 ∧ ¬task.ignoreError then
            [.removeRunStatus (.withLogger .background) chain.chainID,
             .rollback (.withLogger .background)]
          else executeChainLoop env ctx chain txid rest)

/-- `executeChain` (`chain.go` lines 159-214). -/
def executeChain (env : SchedEnv) (ctx : Ctx) (chain : Chain) : List Event :=
  let ctx := (getTimeoutContext ctx env.cfg.resource.chainTimeout chain.timeout).1
  match env.startTransaction chain.chainID with
  | none => [.startTxFail]
  | some txid =>
    match env.getChainElements chain.chainID with
    | none => [.rollback ctx]
    | some tasks => executeChainLoop env ctx chain txid tasks

/-! ### Crash repair (`access.go` lines 22-34) -/

/-- One `timetable.run_status` row, restricted to the columns the
`FixSchedulerCrash` statement reads or writes (`started` and
`last_status_update` are `now()` timestamps and are not modelled). -/
structure RunStatusRow where
  executionStatus : String
  startStatus : Int
  chainExecutionConfig : Int
  clientName : String
deriving DecidableEq

/-- The `execution_status IN ('STARTED', 'CHAIN_FAILED', 'CHAIN_DONE',
'DEAD')` filter set. -/
def crashStatuses : List String := ["STARTED", "CHAIN_FAILED", "CHAIN_DONE", "DEAD"]

/-- Rows satisfying the WHERE clause of the inner SELECT: matching client
name and an execution status from `crashStatuses`. -/
def crashFiltered (client : String) (rows : List RunStatusRow) :
    List RunStatusRow :=
  rows.filter fun r =>
    r.clientName = client ∧ r.executionStatus ∈ crashStatuses

/-- `count(*)` of the `start_status` group `s` over the filtered rows. -/
def crashGroupCount (client : String) (rows : List RunStatusRow) (s : Int) :
    Nat :=
  (crashFiltered client rows).countP fun r => r.startStatus = s

/-- The `start_status` values produced by `GROUP BY 1 HAVING count(*) < 2`
over the filtered rows (each distinct value once). -/
def crashGroups (client : String) (rows : List RunStatusRow) : List Int :=
  (((crashFiltered client rows).map (·.startStatus)).dedup).filter
    fun s => crashGroupCount client rows s < 2

/-- The row inserted for one qualifying group: `('DEAD', …, start_status,
0, client_name)`. -/
def deadRow (client : String) (s : Int) : RunStatusRow :=
  ⟨"DEAD", s, 0, client⟩

/-- `FixSchedulerCrash` (`access.go` lines 22-34) as a transformation of
the `run_status` table state (a list of rows; SQL insertion order of the
new rows is immaterial below). -/
def FixSchedulerCrash (client : String) (rows : List RunStatusRow) :
    List RunStatusRow :=
  rows ++ (crashGroups client rows).map (deadRow client)

/-! ### Advisory client-name lock (`access.go` lines 66-91) -/

/-- `AppID` (`access.go` line 18): Adler-32 of the literal `pg_timetable`. -/
def AppID : Nat := 0x204F04EE

/-- Adler-32 over a byte sequence, as used on the client name
(`hash/adler32`). -/
def adler32 (data : List Nat) : Nat :=
  let st := data.foldl
    (fun (p : Nat × Nat) b => ((p.1 + b) % 65521, (p.2 + p.1 + b) % 65521))
    (1, 0)
  st.2 * 65536 + st.1

/-- One iteration of the `TryLockClientName` loop as observed from outside:
the result of the `pg_try_advisory_lock` query (`false` also covers a query
error, which leaves `res` false), and whether `ctx.Done()` fired during the
subsequent `select` wait. -/
structure LockStep where
  lockAcquired : Bool
  cancelledDuringWait : Bool
deriving DecidableEq

/-- The wait-time update at the end of each iteration (`access.go` lines
86-88): `wt` doubles while it is still below `maxWaitTime`. -/
def nextWait (maxW wt : Int) : Int :=
  if wt < maxW then wt * 2 else wt

/-- The `for !res` loop of `TryLockClientName` (`access.go` lines 70-89),
driven by a finite trace of iteration observations.  Returns `none` when
the trace is exhausted with the loop still running, `some b` for a `return`
with value `b`; the second component records the `wt` wait interval used by
each executed iteration's `select`. -/
def tryLockLoop (maxW : Int) (wt : Int) (res : Bool) :
    List LockStep → Option Bool × List Int
  | [] => if res then (some res, []) else (none, [])
  | s :: rest =>
    if res then (some res, [])
    else if s.cancelledDuringWait then (some false, [wt])
    else
      let r := tryLockLoop maxW (nextWait maxW wt) s.lockAcquired rest
      (r.1, wt :: r.2)

/-- `TryLockClientName` (`access.go` lines 66-91): computes the advisory
lock key `(AppID, adler32(ClientName))` and runs the retry loop starting
from `wt = WaitTime` and `res = false`.  The lock key actually passed to
every `pg_try_advisory_lock` call is returned alongside the loop outcome. -/
def TryLockClientName (clientNameBytes : List Nat) (waitTime maxW : Int)
    (steps : List LockStep) : (Option Bool × List Int) × (Nat × Nat) :=
  (tryLockLoop maxW waitTime false steps, (AppID, adler32 clientNameBytes))

/-! ### Event classifiers -/

/-- Recognizes a `LogChainElementExecution` call. -/
def isLogExec : Event → Bool
  | .logExec _ _ _ => true
  | _ => false

/-- Recognizes a `LogChainElementExecution` call issued on
`context.Background()`. -/
def isLogExecOnBackground : Event → Bool
  | .logExec .background _ _ => true
  | _ => false

/-- Recognizes the start of a task iteration in `executeChain`. -/
def isTaskStart : Event → Bool
  | .taskStart _ => true
  | _ => false

/-- Recognizes a `RemoveChainRunStatus` call. -/
def isRemoveRunStatus : Event → Bool
  | .removeRunStatus _ _ => true
  | _ => false

/-- Recognizes a `RollbackTransaction` call. -/
def isRollback : Event → Bool
  | .rollback _ => true
  | _ => false

/-- Recognizes a `CommitTransaction` call. -/
def isCommit : Event → Bool
  | .commit _ => true
  | _ => false

/-- Recognizes a task dispatch. -/
def isDispatch : Event → Bool
  | .dispatch _ _ => true
  | _ => false

/-- Recognizes a task dispatch issued on the given context. -/
def isDispatchOn (ctx : Ctx) : Event → Bool
  | .dispatch _ c => c == ctx
  | _ => false

/-! ### Claim theorems -/

/-- **C10.** If the command string is empty or only whitespace after
trimming, `ExecuteProgramCommandWithOptions` returns exit code `-1`, empty
output and a non-nil error, and never invokes the commander. -/
theorem c10_empty_command_rejected (decode : String → Option (List String))
    (c : Ctx → CommanderOptions → CmdOutcome) (ctx : Ctx)
    (o : ExecuteProgramOptions) (h : trimSpace o.command = "") :
    ExecuteProgramCommandWithOptions decode c ctx o =
      ⟨-1, "", some .emptyCommand, []⟩ := by
  unfold ExecuteProgramCommandWithOptions
  simp [h]

/-- Witness for `c10_empty_command_rejected` on a whitespace-only command. -/
theorem c10_empty_command_rejected_witness :
    ExecuteProgramCommandWithOptions (fun _ => none) (fun _ _ => ⟨"", none⟩)
      .background ⟨1, 2, "  ", ["x"]⟩ = ⟨-1, "", some .emptyCommand, []⟩ :=
  c10_empty_command_rejected _ _ _ _ (by decide)

/-- **C7.** If `StartTransaction` fails at the start of `executeChain`, the
function returns immediately after logging: the trace is the lone failure
event, so no task starts and neither `RemoveChainRunStatus` nor
`RollbackTransaction` is called. -/
theorem c7_start_tx_failure_leaves_run_status (env : SchedEnv) (ctx : Ctx)
    (chain : Chain) (h : env.startTransaction chain.chainID = none) :
    executeChain env ctx chain = [.startTxFail] ∧
    (executeChain env ctx chain).countP isTaskStart = 0 ∧
    (executeChain env ctx chain).countP isRemoveRunStatus = 0 ∧
    (executeChain env ctx chain).countP isRollback = 0 := by
  have he : executeChain env ctx chain = [.startTxFail] := by
    unfold executeChain
    simp [h]
  refine ⟨he, ?_, ?_, ?_⟩ <;> rw [he] <;> rfl

/-- Witness for `c7_start_tx_failure_leaves_run_status`. -/
theorem c7_start_tx_failure_leaves_run_status_witness :
    executeChain
      ⟨⟨⟨0, 0⟩, false⟩, fun _ => none, fun _ => some [],
       fun _ => ⟨some [], fun _ _ _ => ("", none), fun _ _ _ => (0, "", none),
                 fun _ _ _ => ("", none)⟩⟩
      .external ⟨9, 0, 1, false, false⟩ = [.startTxFail] :=
  (c7_start_tx_failure_leaves_run_status _ _ _ rfl).1

/-- **C8.** Whenever the dispatched task yields a non-nil error while the
exit code is still `0`, `executeChainElement` normalizes the exit code to
`-1` and appends the error text to the output separated by a newline,
before logging the outcome and returning. -/
theorem c8_error_normalizes_exit_code (cfg : SchedCfg) (o : TaskOracle)
    (ctx tctx : Ctx) (task : ChainTask) (pvs : List String) (out e : String)
    (hp : o.paramValues = some pvs)
    (ht : tctx = (getTimeoutContext ctx cfg.resource.taskTimeout task.timeout).1)
    (hd : dispatchTask cfg o tctx task pvs = some (0, out, some e)) :
    executeChainElement cfg o ctx task =
      (-1, [.dispatch task.kind tctx,
            .logExec .background (-1) (out ++ "\n" ++ e)]) := by
  unfold executeChainElement
  rw [hp]
  simp only [← ht, hd]
  simp

/-- Witness for `c8_error_normalizes_exit_code`: a SQL task returning an
error with the zero exit code still in place. -/
theorem c8_error_normalizes_exit_code_witness :
    executeChainElement ⟨⟨0, 0⟩, false⟩
      ⟨some ["p"], fun _ _ _ => ("out", some "boom"),
       fun _ _ _ => (0, "", none), fun _ _ _ => ("", none)⟩
      .external ⟨1, 2, 3, "SQL", "select 1", false, 0⟩ =
      (-1, [.dispatch "SQL" .external,
            .logExec .background (-1) ("out" ++ "\n" ++ "boom")]) :=
  c8_error_normalizes_exit_code _ _ _ _ _ _ _ _ rfl rfl rfl

/-- `dispatchTask` is skipped (`none`) exactly for a PROGRAM task under
`NoProgramTasks`. -/
theorem dispatchTask_eq_none_iff (cfg : SchedCfg) (o : TaskOracle)
    (tctx : Ctx) (task : ChainTask) (pvs : List String) :
    dispatchTask cfg o tctx task pvs = none ↔
      task.kind = "PROGRAM" ∧ cfg.noProgramTasks = true := by
  unfold dispatchTask
  split <;> rename_i h₁
  · simp [h₁]
  · split <;> rename_i h₂
    · split <;> rename_i h₃
      · simp [h₂, h₃]
      · simp [h₂, h₃]
    · split <;> simp [h₂]

/-- **C1 (amended).** `executeChainElement` calls
`LogChainElementExecution` exactly once, always on a fresh background
context, on every invocation that reaches task dispatch; on the two early
returns — parameter-fetch failure and a PROGRAM task skipped because
programs are globally disabled — it returns without calling it. -/
theorem c1_log_exec_once_unless_early_return (cfg : SchedCfg)
    (o : TaskOracle) (ctx : Ctx) (task : ChainTask) :
    ((executeChainElement cfg o ctx task).2.countP isLogExec =
      if o.paramValues = none ∨ (task.kind = "PROGRAM" ∧ cfg.noProgramTasks = true)
      then 0 else 1) ∧
    (executeChainElement cfg o ctx task).2.countP isLogExec =
      (executeChainElement cfg o ctx task).2.countP isLogExecOnBackground := by
  cases hp : o.paramValues with
  | none =>
    unfold executeChainElement
    rw [hp]
    simp
  | some pvs =>
    unfold executeChainElement
    rw [hp]
    simp only []
    cases hd : dispatchTask cfg o
        ((getTimeoutContext ctx cfg.resource.taskTimeout task.timeout).1)
        task pvs with
    | none =>
      have := (dispatchTask_eq_none_iff cfg o _ task pvs).mp hd
      simp [hd, hp, this]
    | some r =>
      obtain ⟨rc, out, err⟩ := r
      have hne : ¬(task.kind = "PROGRAM" ∧ cfg.noProgramTasks = true) := by
        intro hcon
        rw [(dispatchTask_eq_none_iff cfg o _ task pvs).mpr hcon] at hd
        exact Option.noConfusion hd
      simp [hd, hp, hne, List.countP_cons, isLogExec, isLogExecOnBackground,
        isDispatch]

/-- Counterexample to **C1** as stated: on a parameter-fetch failure the
function returns `-1` with an empty trace, so `LogChainElementExecution`
is not called at all for that task invocation. -/
theorem c1_counterexample :
    executeChainElement ⟨⟨0, 0⟩, false⟩
      ⟨none, fun _ _ _ => ("", none), fun _ _ _ => (0, "", none),
       fun _ _ _ => ("", none)⟩ .external ⟨1, 5, 0, "SQL", "s", false, 0⟩ =
      (-1, []) ∧
    (executeChainElement ⟨⟨0, 0⟩, false⟩
      ⟨none, fun _ _ _ => ("", none), fun _ _ _ => (0, "", none),
       fun _ _ _ => ("", none)⟩ .external
      ⟨1, 5, 0, "SQL", "s", false, 0⟩).2.countP isLogExec ≠ 1 := by
  constructor
  · rfl
  · decide

/-- **C6.** `getTimeoutContext ctx t1 t2` derives a timeout context with
`max t1 t2` milliseconds and a non-nil cancel function when `max t1 t2 > 0`,
and returns the given context unchanged with a nil cancel function
otherwise; `executeChainElement` applies it with `t1 = config.TaskTimeout`
and `t2 = task.Timeout`, so with both `0` every task dispatch runs on the
incoming context itself. -/
theorem c6_timeout_context_derivation :
    (∀ (ctx : Ctx) (t1 t2 : Int), 0 < max t1 t2 →
        getTimeoutContext ctx t1 t2 = (.withTimeout ctx (max t1 t2), some ())) ∧
    (∀ (ctx : Ctx) (t1 t2 : Int), max t1 t2 ≤ 0 →
        getTimeoutContext ctx t1 t2 = (ctx, none)) ∧
    (∀ (cfg : SchedCfg) (o : TaskOracle) (ctx : Ctx) (task : ChainTask),
        cfg.resource.taskTimeout = 0 → task.timeout = 0 →
        ((executeChainElement cfg o ctx task).2.filter isDispatch).all
          (isDispatchOn ctx) = true) := by
  refine ⟨?_, ?_, ?_⟩
  · intro ctx t1 t2 h
    simp [getTimeoutContext, h]
  · intro ctx t1 t2 h
    simp [getTimeoutContext, not_lt.mpr h]
  · intro cfg o ctx task h1 h2
    have htc : (getTimeoutContext ctx cfg.resource.taskTimeout task.timeout).1
        = ctx := by
      simp [getTimeoutContext, h1, h2]
    cases hp : o.paramValues with
    | none =>
      unfold executeChainElement
      rw [hp]
      simp
    | some pvs =>
      unfold executeChainElement
      rw [hp]
      simp only []
      cases hd : dispatchTask cfg o
          ((getTimeoutContext ctx cfg.resource.taskTimeout task.timeout).1)
          task pvs with
      | none => simp [hd]
      | some r =>
        obtain ⟨rc, out, err⟩ := r
        simp [hd, htc, isDispatch, isLogExec, isDispatchOn]

/-- Witness for `c6_timeout_context_derivation` at concrete timeouts. -/
theorem c6_timeout_context_derivation_witness :
    getTimeoutContext .external 5 3 = (.withTimeout .external 5, some ()) ∧
    getTimeoutContext .external 0 0 = (.external, none) ∧
    ((executeChainElement ⟨⟨7, 0⟩, false⟩
        ⟨some [], fun _ _ _ => ("", none), fun _ _ _ => (0, "", none),
         fun _ _ _ => ("", none)⟩ .external
        ⟨1, 2, 3, "SQL", "select", false, 0⟩).2.filter isDispatch).all
      (isDispatchOn .external) = true :=
  ⟨c6_timeout_context_derivation.1 _ 5 3 (by decide),
   c6_timeout_context_derivation.2.1 _ 0 0 (by decide),
   c6_timeout_context_derivation.2.2 _ _ _ _ rfl rfl⟩

/-- One iteration of the `executeChain` task loop: the element call made
for `task` when the loop's context variable is `ctx` (the loop first sets
the chain/transaction ids on the task and wraps the context with the task
logger). -/
def chainStep (env : SchedEnv) (chain : Chain) (txid : Int) (ctx : Ctx)
    (task : ChainTask) : Int × List Event :=
  executeChainElement env.cfg (env.taskOracle (withIds chain txid task))
    (.withLogger ctx) (withIds chain txid task)

/-- The events produced by a run of loop iterations that all continue
(each task either returns `0` or has `IgnoreError` set). -/
def prefixEvents (env : SchedEnv) (chain : Chain) (txid : Int) :
    Ctx → List ChainTask → List Event
  | _, [] => []
  | ctx, task :: rest =>
    .taskStart (withIds chain txid task).taskID ::
      ((chainStep env chain txid ctx task).2
        ++ prefixEvents env chain txid (.withLogger ctx) rest)

/-- Every listed task lets the loop continue: its element call returns `0`
or its `IgnoreError` flag is set. -/
def allContinue (env : SchedEnv) (chain : Chain) (txid : Int) :
    Ctx → List ChainTask → Bool
  | _, [] => true
  | ctx, task :: rest =>
    ((chainStep env chain txid ctx task).1 == 0 || task.ignoreError)
      && allContinue env chain txid (.withLogger ctx) rest

/-- Unfolding the task loop across a run of continuing iterations. -/
theorem executeChainLoop_append (env : SchedEnv) (chain : Chain) (txid : Int)
    (pre l : List ChainTask) (ctx : Ctx)
    (h : allContinue env chain txid ctx pre = true) :
    executeChainLoop env ctx chain txid (pre ++ l) =
      prefixEvents env chain txid ctx pre
        ++ executeChainLoop env (Ctx.withLogger^[pre.length] ctx) chain txid l := by
  induction pre generalizing ctx with
  | nil => simp [prefixEvents]
  | cons task rest ih =>
    rw [allContinue] at h
    rw [Bool.and_eq_true] at h
    obtain ⟨h1, h2⟩ := h
    have hcont : ¬((chainStep env chain txid ctx task).1 ≠ 0 ∧
        ¬(withIds chain txid task).ignoreError) := by
      rw [Bool.or_eq_true, beq_iff_eq] at h1
      rcases h1 with h1 | h1
      · intro hc; exact hc.1 h1
      · intro hc; exact hc.2 (by simp [withIds, h1])
    rw [List.cons_append, executeChainLoop]
    rw [prefixEvents]
    simp only [chainStep] at hcont ⊢
    rw [if_neg hcont]
    rw [ih _ h2]
    simp [Function.iterate_succ_apply, List.append_assoc]

/-- **C2.** In the `executeChain` task loop, after any run of continuing
tasks, a task returning a non-zero exit code with `IgnoreError = false`
makes the chain remove its run-status record and roll the transaction back,
both on a non-cancellable background-derived context, and return without
executing any later task; with `IgnoreError = true` execution continues
with the next task in declared order. -/
theorem c2_ignore_error_policy (env : SchedEnv) (ctx ctx0 cctx : Ctx)
    (chain : Chain) (txid : Int) (pre post : List ChainTask)
    (task : ChainTask)
    (hstart : env.startTransaction chain.chainID = some txid)
    (helems : env.getChainElements chain.chainID = some (pre ++ task :: post))
    (hctx0 : ctx0 =
      (getTimeoutContext ctx env.cfg.resource.chainTimeout chain.timeout).1)
    (hcctx : cctx = Ctx.withLogger^[pre.length] ctx0)
    (hpre : allContinue env chain txid ctx0 pre = true)
    (hfail : (chainStep env chain txid cctx task).1 ≠ 0) :
    (task.ignoreError = false →
      executeChain env ctx chain =
        prefixEvents env chain txid ctx0 pre
          ++ .taskStart (withIds chain txid task).taskID ::
            ((chainStep env chain txid cctx task).2
              ++ [.removeRunStatus (.withLogger .background) chain.chainID,
                  .rollback (.withLogger .background)])) ∧
    (task.ignoreError = true →
      executeChain env ctx chain =
        prefixEvents env chain txid ctx0 pre
          ++ .taskStart (withIds chain txid task).taskID ::
            ((chainStep env chain txid cctx task).2
              ++ executeChainLoop env (.withLogger cctx) chain txid post)) ∧
    nonCancellable (.withLogger .background) = true := by
  have hchain : executeChain env ctx chain =
      executeChainLoop env ctx0 chain txid (pre ++ task :: post) := by
    unfold executeChain
    rw [hstart, helems, ← hctx0]
  have hsplit := executeChainLoop_append env chain txid pre (task :: post)
    ctx0 hpre
  rw [← hcctx] at hsplit
  refine ⟨?_, ?_, rfl⟩
  · intro hig
    rw [hchain, hsplit, executeChainLoop]
    simp only [chainStep] at hfail
    rw [if_pos ⟨hfail, by simp [withIds, hig]⟩]
    simp only [chainStep, List.cons_append]
  · intro hig
    rw [hchain, hsplit, executeChainLoop]
    rw [if_neg (by simp [withIds, hig])]
    simp only [chainStep, List.cons_append]

/-- Witness for `c2_ignore_error_policy`: a two-task chain whose first SQL
task errors with `IgnoreError = false`; the second task never runs and the
trace ends with the background run-status removal and rollback. -/
theorem c2_ignore_error_policy_witness :
    executeChain
      ⟨⟨⟨0, 0⟩, false⟩, fun _ => some 42,
       fun _ => some [⟨1, 0, 0, "SQL", "s", false, 0⟩,
                      ⟨2, 0, 0, "SQL", "s2", false, 0⟩],
       fun _ => ⟨some [], fun _ _ _ => ("o", some "err"),
                 fun _ _ _ => (0, "", none), fun _ _ _ => ("", none)⟩⟩
      .external ⟨5, 0, 1, false, false⟩ =
      [.taskStart 1, .dispatch "SQL" (.withLogger .external),
       .logExec .background (-1) ("o" ++ "\n" ++ "err"),
       .removeRunStatus (.withLogger .background) 5,
       .rollback (.withLogger .background)] :=
  (c2_ignore_error_policy _ .external _ _ _ 42 []
      [⟨2, 0, 0, "SQL", "s2", false, 0⟩] ⟨1, 0, 0, "SQL", "s", false, 0⟩
      rfl rfl rfl rfl rfl (by decide)).1 rfl

/-- A `start_status` value is a qualifying group exactly when the filtered
rows contain it exactly once (`GROUP BY` only forms groups from existing
rows, and `HAVING count(*) < 2` keeps the singletons). -/
theorem mem_crashGroups_iff (client : String) (rows : List RunStatusRow)
    (s : Int) :
    s ∈ crashGroups client rows ↔ crashGroupCount client rows s = 1 := by
  unfold crashGroups
  rw [List.mem_filter, List.mem_dedup, List.mem_map]
  constructor
  · rintro ⟨⟨r, hr, hrs⟩, hlt⟩
    rw [decide_eq_true_eq] at hlt
    have hpos : 0 < crashGroupCount client rows s := by
      rw [crashGroupCount, List.countP_pos_iff]
      exact ⟨r, hr, by simp [hrs]⟩
    omega
  · intro h1
    have hpos : 0 < crashGroupCount client rows s := by omega
    rw [crashGroupCount, List.countP_pos_iff] at hpos
    obtain ⟨r, hr, hrs⟩ := hpos
    rw [decide_eq_true_eq] at hrs
    exact ⟨⟨r, hr, hrs⟩, by rw [decide_eq_true_eq]; omega⟩

/-- The inserted DEAD rows all pass the crash filter for the same client. -/
theorem crashFiltered_deadRows (client : String) (gs : List Int) :
    crashFiltered client (gs.map (deadRow client)) = gs.map (deadRow client) := by
  unfold crashFiltered
  rw [List.filter_eq_self]
  intro r hr
  rw [List.mem_map] at hr
  obtain ⟨g, _, rfl⟩ := hr
  simp [deadRow, crashStatuses]

/-- Counting a `start_status` value among DEAD rows inserted for a
duplicate-free group list finds it at most once. -/
theorem countP_deadRows (client : String) (s : Int) :
    ∀ gs : List Int, gs.Nodup →
      ((gs.map (deadRow client)).countP fun r => r.startStatus = s) =
        if s ∈ gs then 1 else 0 := by
  intro gs
  induction gs with
  | nil => intro _; simp
  | cons a l ih =>
    intro h
    rw [List.nodup_cons] at h
    simp only [List.map_cons, List.countP_cons, ih h.2, deadRow]
    by_cases hs : s = a
    · subst hs
      simp [h.1]
    · have hs' : ¬a = s := fun hh => hs hh.symm
      simp [hs, hs']

/-- Group counts after one crash repair: each qualifying group gained
exactly one row, the others none. -/
theorem crashGroupCount_fix (client : String) (rows : List RunStatusRow)
    (s : Int) :
    crashGroupCount client (FixSchedulerCrash client rows) s =
      crashGroupCount client rows s +
        (if s ∈ crashGroups client rows then 1 else 0) := by
  unfold FixSchedulerCrash
  unfold crashGroupCount crashFiltered
  rw [List.filter_append, List.countP_append]
  have hd := crashFiltered_deadRows client (crashGroups client rows)
  unfold crashFiltered at hd
  rw [hd]
  rw [countP_deadRows client s (crashGroups client rows)
    ((List.nodup_dedup _).filter _)]

/-- After one crash repair there is no qualifying group left. -/
theorem crashGroups_fix (client : String) (rows : List RunStatusRow) :
    crashGroups client (FixSchedulerCrash client rows) = [] := by
  unfold crashGroups
  rw [List.filter_eq_nil_iff]
  intro s hs
  rw [List.mem_dedup, List.mem_map] at hs
  obtain ⟨r, hr, rfl⟩ := hs
  rw [decide_eq_true_eq, crashGroupCount_fix, not_lt]
  by_cases hmem : r.startStatus ∈ crashGroups client rows
  · have h1 := (mem_crashGroups_iff client rows r.startStatus).mp hmem
    rw [if_pos hmem]
    omega
  · rw [if_neg hmem]
    have hsplit : r ∈ crashFiltered client rows ∨
        r ∈ (crashGroups client rows).map (deadRow client) := by
      unfold FixSchedulerCrash crashFiltered at hr
      rw [List.filter_append, List.mem_append] at hr
      rcases hr with hr | hr
      · exact Or.inl hr
      · exact Or.inr (List.mem_of_mem_filter hr)
    rcases hsplit with hr' | hr'
    · have hpos : 0 < crashGroupCount client rows r.startStatus := by
        rw [crashGroupCount, List.countP_pos_iff]
        exact ⟨r, hr', by simp⟩
      have hne : crashGroupCount client rows r.startStatus ≠ 1 := by
        intro h1
        exact hmem ((mem_crashGroups_iff client rows r.startStatus).mpr h1)
      omega
    · rw [List.mem_map] at hr'
      obtain ⟨g, hg, hrg⟩ := hr'
      rw [← hrg] at hmem
      exact absurd hg (by simpa [deadRow] using hmem)

/-- **C4.** `FixSchedulerCrash` inserts, for the current client, exactly
one DEAD row per `start_status` group whose execution status lies in
{STARTED, CHAIN_FAILED, CHAIN_DONE, DEAD} and whose filtered row count is
strictly below two (i.e. is exactly one), and it is idempotent on the
`run_status` state. -/
theorem c4_fix_scheduler_crash (client : String) (rows : List RunStatusRow) :
    FixSchedulerCrash client rows =
      rows ++ (crashGroups client rows).map (deadRow client) ∧
    (crashGroups client rows).Nodup ∧
    (∀ s : Int, s ∈ crashGroups client rows ↔
      crashGroupCount client rows s = 1) ∧
    FixSchedulerCrash client (FixSchedulerCrash client rows) =
      FixSchedulerCrash client rows := by
  refine ⟨rfl, (List.nodup_dedup _).filter _,
    fun s => mem_crashGroups_iff client rows s, ?_⟩
  conv_lhs => rw [FixSchedulerCrash]
  rw [crashGroups_fix]
  simp

/-- Once `res` has become true the loop condition fails and the function
returns true. -/
theorem tryLockLoop_true (m w : Int) (steps : List LockStep) :
    (tryLockLoop m w true steps).1 = some true := by
  cases steps <;> simp [tryLockLoop]

/-- The wait intervals used by the lock loop follow the capped-doubling
recurrence `nextWait` from the starting value. -/
theorem tryLockLoop_waits (m : Int) :
    ∀ (steps : List LockStep) (w : Int) (res : Bool),
      (tryLockLoop m w res steps).2 =
        (List.range (tryLockLoop m w res steps).2.length).map
          (fun i => (nextWait m)^[i] w) := by
  intro steps
  induction steps with
  | nil => intro w res; by_cases hres : res <;> simp [tryLockLoop, hres]
  | cons s rest ih =>
    intro w res
    by_cases hres : res
    · simp [tryLockLoop, hres]
    · by_cases hc : s.cancelledDuringWait
      · simp [tryLockLoop, hres, hc]
      · simp only [tryLockLoop, hres, hc, if_false, Bool.false_eq_true,
          if_neg, ite_false]
        simp only [List.length_cons]
        rw [List.range_succ_eq_map, List.map_cons, List.map_map]
        have : (fun i => (nextWait m)^[i] w) ∘ Nat.succ =
            fun i => (nextWait m)^[i] (nextWait m w) := by
          funext i
          simp [Function.iterate_succ_apply]
        rw [Function.iterate_zero_apply, this, ← ih (nextWait m w) s.lockAcquired]

/-- The loop returns `false` only when the cancellation token fired during
one of its waits. -/
theorem tryLockLoop_false_cancelled (m : Int) :
    ∀ (steps : List LockStep) (w : Int) (res : Bool),
      (tryLockLoop m w res steps).1 = some false →
      steps.any (·.cancelledDuringWait) = true := by
  intro steps
  induction steps with
  | nil =>
    intro w res h
    by_cases hres : res <;> simp [tryLockLoop, hres] at h
  | cons s rest ih =>
    intro w res h
    by_cases hres : res
    · rw [tryLockLoop, if_pos hres] at h
      rw [Option.some_inj] at h
      rw [hres] at h
      exact absurd h (by simp)
    · by_cases hc : s.cancelledDuringWait
      · simp [hc]
      · rw [tryLockLoop, if_neg hres, if_neg (by simp [hc])] at h
        simp only [List.any_cons, hc, Bool.false_or]
        exact ih (nextWait m w) s.lockAcquired h

/-- An acquisition whose subsequent wait is not interrupted makes the loop
return `true`, whatever came before, provided the earlier iterations
neither acquired nor were cancelled. -/
theorem tryLockLoop_acquired_true (m : Int) (s : LockStep)
    (post : List LockStep) (hacq : s.lockAcquired = true)
    (hnc : s.cancelledDuringWait = false) :
    ∀ (pre : List LockStep) (w : Int),
      (∀ p ∈ pre, p.lockAcquired = false ∧ p.cancelledDuringWait = false) →
      (tryLockLoop m w false (pre ++ s :: post)).1 = some true := by
  intro pre
  induction pre with
  | nil =>
    intro w _
    rw [List.nil_append, tryLockLoop, if_neg (by simp), if_neg (by simp [hnc])]
    simp only [hacq]
    exact tryLockLoop_true m (nextWait m w) post
  | cons p rest ih =>
    intro w hpre
    have hp := hpre p (List.mem_cons_self p rest)
    rw [List.cons_append, tryLockLoop, if_neg (by simp),
      if_neg (by simp [hp.2])]
    simp only [hp.1]
    exact ih (nextWait m w) (fun q hq => hpre q (List.mem_cons_of_mem _ hq))

/-- **C5 (amended).** `TryLockClientName` attempts the advisory lock on
`(AppID, adler32(ClientName))` with wait intervals starting at `WaitTime`
and doubling while they are still below `maxWaitTime`; it returns `false`
only if the cancellation token fired during a wait, and returns `true` when
an attempt acquires the lock and the cancellation token does not fire
during the wait that the loop still performs after the acquisition. -/
theorem c5_trylock_backoff_amended (clientBytes : List Nat) (w m : Int)
    (steps : List LockStep) :
    ((TryLockClientName clientBytes w m steps).2 =
      (AppID, adler32 clientBytes)) ∧
    ((TryLockClientName clientBytes w m steps).1.2 =
      (List.range (TryLockClientName clientBytes w m steps).1.2.length).map
        (fun i => (nextWait m)^[i] w)) ∧
    ((TryLockClientName clientBytes w m steps).1.1 = some false →
      steps.any (·.cancelledDuringWait) = true) ∧
    (∀ (pre post : List LockStep) (s : LockStep),
      steps = pre ++ s :: post →
      (∀ p ∈ pre, p.lockAcquired = false ∧ p.cancelledDuringWait = false) →
      s.lockAcquired = true → s.cancelledDuringWait = false →
      (TryLockClientName clientBytes w m steps).1.1 = some true) := by
  refine ⟨rfl, tryLockLoop_waits m steps w false,
    tryLockLoop_false_cancelled m steps w false, ?_⟩
  rintro pre post s rfl hpre hacq hnc
  exact tryLockLoop_acquired_true m s post hacq hnc pre w hpre

/-- Witness for `c5_trylock_backoff_amended`: one failed attempt followed
by an undisturbed successful one returns `true`. -/
theorem c5_trylock_backoff_amended_witness :
    (TryLockClientName [112] 1 4
      [⟨false, false⟩, ⟨true, false⟩]).1.1 = some true :=
  (c5_trylock_backoff_amended [112] 1 4 _).2.2.2
    [⟨false, false⟩] [] ⟨true, false⟩ rfl (by decide) rfl rfl

/-- Counterexample to **C5** as stated: the attempt acquires the lock, but
the cancellation token fires during the wait the loop still performs
afterwards, and the function returns `false` although the lock has been
acquired. -/
theorem c5_counterexample :
    (TryLockClientName [112] 1 4 [⟨true, true⟩]).1.1 = some false ∧
    [LockStep.mk true true].any (·.lockAcquired) = true := by
  decide

/-! ### Program-loop lemmas for C3 and C9 -/

/-- The argv actually used for an entry (defaulting to `[]`, which only
matters after a successful decode). -/
def argvD (decode : String → Option (List String)) (val : String) :
    List String :=
  (argvOf decode val).getD []

/-- An entry lets the parameter loop continue: its argv is available and
the commander invocation returns no error. -/
def entryOk (decode : String → Option (List String))
    (c : Ctx → CommanderOptions → CmdOutcome) (ctx : Ctx) (ci ti : Int)
    (command val : String) : Bool :=
  match argvOf decode val with
  | none => false
  | some params => (c ctx ⟨ci, ti, command, params⟩).err.isNone

/-- The value of the `stdout` accumulator after a run of continuing
entries: the trimmed output of the last invocation, or the initial value
when the run is empty. -/
def stdoutAfter (decode : String → Option (List String))
    (c : Ctx → CommanderOptions → CmdOutcome) (ctx : Ctx) (ci ti : Int)
    (command stdout : String) (pv : List String) : String :=
  pv.foldl
    (fun _ val => trimSpace (c ctx ⟨ci, ti, command, argvD decode val⟩).out)
    stdout

/-- Prepends invocations to the instrumentation trace of a result. -/
def withCalls (ps : List (List String)) (r : ExecResult) : ExecResult :=
  { r with calls := ps ++ r.calls }

/-- A run of entries that all continue yields exit code 0, no error, one
invocation per entry in order, and the last trimmed output. -/
theorem execLoopWO_all_ok (decode : String → Option (List String))
    (c : Ctx → CommanderOptions → CmdOutcome) (ctx : Ctx) (ci ti : Int)
    (command : String) :
    ∀ (pv : List String) (stdout : String),
      (∀ val ∈ pv, entryOk decode c ctx ci ti command val = true) →
      execProgramLoopWithOptions decode c ctx ci ti command stdout pv =
        ⟨0, stdoutAfter decode c ctx ci ti command stdout pv, none,
         pv.map (argvD decode)⟩ := by
  intro pv
  induction pv with
  | nil => intro stdout _; rfl
  | cons val rest ih =>
    intro stdout hok
    have hv := hok val (List.mem_cons_self val rest)
    rw [execProgramLoopWithOptions]
    unfold entryOk at hv
    cases hA : argvOf decode val with
    | none =>
      rw [hA] at hv
      exact Bool.noConfusion hv
    | some params =>
      rw [hA] at hv
      have hv' : (c ctx ⟨ci, ti, command, params⟩).err.isNone = true := hv
      simp only [hA]
      cases hE : (c ctx ⟨ci, ti, command, params⟩).err with
      | some e => rw [hE] at hv'; simp at hv'
      | none =>
        simp only [hE]
        rw [ih _ (fun u hu => hok u (List.mem_cons_of_mem _ hu))]
        simp [stdoutAfter, argvD, hA, List.foldl_cons]

/-- Splitting the parameter loop after a run of continuing entries. -/
theorem execLoopWO_append_ok (decode : String → Option (List String))
    (c : Ctx → CommanderOptions → CmdOutcome) (ctx : Ctx) (ci ti : Int)
    (command : String) :
    ∀ (pre l : List String) (stdout : String),
      (∀ val ∈ pre, entryOk decode c ctx ci ti command val = true) →
      execProgramLoopWithOptions decode c ctx ci ti command stdout (pre ++ l) =
        withCalls (pre.map (argvD decode))
          (execProgramLoopWithOptions decode c ctx ci ti command
            (stdoutAfter decode c ctx ci ti command stdout pre) l) := by
  intro pre
  induction pre with
  | nil =>
    intro l stdout _
    simp [withCalls, stdoutAfter]
  | cons val rest ih =>
    intro l stdout hok
    have hv := hok val (List.mem_cons_self val rest)
    rw [List.cons_append, execProgramLoopWithOptions]
    unfold entryOk at hv
    cases hA : argvOf decode val with
    | none =>
      rw [hA] at hv
      exact Bool.noConfusion hv
    | some params =>
      rw [hA] at hv
      have hv' : (c ctx ⟨ci, ti, command, params⟩).err.isNone = true := hv
      simp only [hA]
      cases hE : (c ctx ⟨ci, ti, command, params⟩).err with
      | some e => rw [hE] at hv'; simp at hv'
      | none =>
        simp only [hE]
        rw [ih _ _ (fun u hu => hok u (List.mem_cons_of_mem _ hu))]
        simp [withCalls, stdoutAfter, argvD, hA, List.foldl_cons]

/-- **C3.** For a non-empty trimmed command, the parameter loop of
`ExecuteProgramCommandWithOptions` invokes the program once per
parameter-value entry in order (exactly once with empty argv when the list
is empty), passing the decoded array of that entry as argv; a decode
failure aborts with `-1` without invoking for that entry; the first
invocation returning an exit error aborts the loop with that exit code;
and when every invocation succeeds the result is `0` with the last
invocation's trimmed combined output. -/
theorem c3_program_per_entry_invocation (decode : String → Option (List String))
    (c : Ctx → CommanderOptions → CmdOutcome) (ctx : Ctx)
    (o : ExecuteProgramOptions) (pv : List String)
    (hcmd : trimSpace o.command ≠ "")
    (hpv : pv = if o.paramValue = [] then [""] else o.paramValue) :
    (o.paramValue = [] →
      (ExecuteProgramCommandWithOptions decode c ctx o).calls = [[]]) ∧
    ((∀ val ∈ pv,
        entryOk decode c ctx o.chainId o.taskId (trimSpace o.command) val
          = true) →
      ExecuteProgramCommandWithOptions decode c ctx o =
        ⟨0, stdoutAfter decode c ctx o.chainId o.taskId (trimSpace o.command)
              "" pv, none, pv.map (argvD decode)⟩) ∧
    (∀ (pre post : List String) (val : String),
      pv = pre ++ val :: post →
      (∀ u ∈ pre,
        entryOk decode c ctx o.chainId o.taskId (trimSpace o.command) u
          = true) →
      argvOf decode val = none →
      ExecuteProgramCommandWithOptions decode c ctx o =
        ⟨-1, "", some (.jsonError val), pre.map (argvD decode)⟩) ∧
    (∀ (pre post : List String) (val : String) (params : List String)
        (out : String) (code : Int),
      pv = pre ++ val :: post →
      (∀ u ∈ pre,
        entryOk decode c ctx o.chainId o.taskId (trimSpace o.command) u
          = true) →
      argvOf decode val = some params →
      c ctx ⟨o.chainId, o.taskId, trimSpace o.command, params⟩ =
        ⟨out, some (.exitError code)⟩ →
      ExecuteProgramCommandWithOptions decode c ctx o =
        ⟨code, trimSpace out, some (.cmd (.exitError code)),
         pre.map (argvD decode) ++ [params]⟩) := by
  have hunf : ExecuteProgramCommandWithOptions decode c ctx o =
      execProgramLoopWithOptions decode c ctx o.chainId o.taskId
        (trimSpace o.command) "" pv := by
    rw [ExecuteProgramCommandWithOptions]
    simp only [if_neg hcmd, hpv]
  refine ⟨?_, ?_, ?_, ?_⟩
  · intro hempty
    rw [hunf]
    rw [hpv, if_pos hempty]
    rw [execProgramLoopWithOptions]
    have hA : argvOf decode "" = some [] := rfl
    simp only [hA]
    cases hE : (c ctx ⟨o.chainId, o.taskId, trimSpace o.command, []⟩).err with
    | none => simp [hE, execProgramLoopWithOptions]
    | some e => cases e <;> simp [hE]
  · intro hok
    rw [hunf]
    exact execLoopWO_all_ok decode c ctx o.chainId o.taskId
      (trimSpace o.command) pv "" hok
  · rintro pre post val rfl hok hA
    rw [hunf]
    rw [execLoopWO_append_ok decode c ctx o.chainId o.taskId
      (trimSpace o.command) pre (val :: post) "" hok]
    rw [execProgramLoopWithOptions]
    simp [hA, withCalls]
  · rintro pre post val params out code rfl hok hA hc
    rw [hunf]
    rw [execLoopWO_append_ok decode c ctx o.chainId o.taskId
      (trimSpace o.command) pre (val :: post) "" hok]
    rw [execProgramLoopWithOptions]
    simp [hA, hc, withCalls]

/-- Witness for `c3_program_per_entry_invocation`: a first entry decoding
to `[]` succeeds, the second decodes to `["a"]` and exits with code 3,
aborting the loop with code 3 after exactly two invocations. -/
theorem c3_program_per_entry_invocation_witness :
    ExecuteProgramCommandWithOptions
      (fun s => if s = "[]" then some [] else
        if s = "[a]" then some ["a"] else none)
      (fun _ opts => if opts.args = [] then ⟨"ok", none⟩
        else ⟨"bad", some (.exitError 3)⟩)
      .background ⟨1, 2, "cmd", ["[]", "[a]", "[]"]⟩ =
      ⟨3, trimSpace "bad", some (.cmd (.exitError 3)), [[], ["a"]]⟩ :=
  (c3_program_per_entry_invocation
      (fun s => if s = "[]" then some [] else
        if s = "[a]" then some ["a"] else none)
      (fun _ opts => if opts.args = [] then ⟨"ok", none⟩
        else ⟨"bad", some (.exitError 3)⟩)
      .background ⟨1, 2, "cmd", ["[]", "[a]", "[]"]⟩ _
      (by decide) rfl).2.2.2
    ["[]"] ["[]"] "[a]" ["a"] "bad" 3 rfl (by decide) (by decide) (by decide)

/-- The two parameter loops agree step by step whenever the two commanders
agree on every command and argv. -/
theorem execProgramLoop_eq_withOptions (decode : String → Option (List String))
    (c1 : Ctx → String → List String → CmdOutcome)
    (c2 : Ctx → CommanderOptions → CmdOutcome) (ctx : Ctx) (ci ti : Int)
    (h : ∀ (cmd : String) (args : List String),
      c1 ctx cmd args = c2 ctx ⟨ci, ti, cmd, args⟩) :
    ∀ (pv : List String) (command stdout : String),
      execProgramLoop decode c1 ctx command stdout pv =
        execProgramLoopWithOptions decode c2 ctx ci ti command stdout pv := by
  intro pv
  induction pv with
  | nil => intro command stdout; rfl
  | cons val rest ih =>
    intro command stdout
    rw [execProgramLoop, execProgramLoopWithOptions]
    cases hA : argvOf decode val with
    | none => simp [hA]
    | some params =>
      simp only [hA]
      rw [← h command params]
      cases hE : (c1 ctx command params).err with
      | none => simp only [hE]; rw [ih]
      | some e => cases e <;> simp [hE]

/-- **C9.** `ExecuteProgramCommand` and `ExecuteProgramCommandWithOptions`
are behaviorally equivalent: whenever the underlying commander's
`CombinedOutput` and `CombinedOutputWithOptions` return the same output and
error for the same command and argv, the two functions return identical
results (exit code, output, error, and the same invocations). -/
theorem c9_with_options_equivalent (decode : String → Option (List String))
    (c1 : Ctx → String → List String → CmdOutcome)
    (c2 : Ctx → CommanderOptions → CmdOutcome) (ctx : Ctx)
    (o : ExecuteProgramOptions)
    (h : ∀ (cmd : String) (args : List String),
      c1 ctx cmd args = c2 ctx ⟨o.chainId, o.taskId, cmd, args⟩) :
    ExecuteProgramCommand decode c1 ctx o.command o.paramValue =
      ExecuteProgramCommandWithOptions decode c2 ctx o := by
  rw [ExecuteProgramCommand, ExecuteProgramCommandWithOptions]
  by_cases hcmd : trimSpace o.command = ""
  · simp [hcmd]
  · simp only [if_neg hcmd]
    exact execProgramLoop_eq_withOptions decode c1 c2 ctx o.chainId o.taskId
      h _ _ _

/-- Witness for `c9_with_options_equivalent` with agreeing commanders. -/
theorem c9_with_options_equivalent_witness :
    ExecuteProgramCommand (fun _ => some ["a"]) (fun _ _ _ => ⟨" x ", none⟩)
      .background "cmd" ["v"] =
    ExecuteProgramCommandWithOptions (fun _ => some ["a"])
      (fun _ _ => ⟨" x ", none⟩) .background ⟨3, 4, "cmd", ["v"]⟩ :=
  c9_with_options_equivalent (fun _ => some ["a"]) (fun _ _ _ => ⟨" x ", none⟩)
    (fun _ _ => ⟨" x ", none⟩) .background ⟨3, 4, "cmd", ["v"]⟩
    (fun _ _ => rfl)

end PgTimetable
